import Mathlib

/-!
Verification development for the `scraping.py` module of the
`diplodatos_lacuerda` repository.

The module is shallowly embedded: Python strings become `List Char`,
the HTML documents handled by BeautifulSoup become a tree type `Node`,
and the network becomes an explicit oracle mapping a request to either
a transport failure (any `requests.RequestException`: connection error,
timeout, or a non-2xx status surfaced by `raise_for_status`) or a
parsed document.  The pagination loop of `fetch_all_artists`, a
`while True` loop in the source, is embedded with an explicit fuel
argument: a `none` result means the loop was still running when the
fuel ran out, so termination of the source loop is expressed as the
existence of a sufficient fuel.  The loop value also carries the list
of requests issued, the observable I/O trace of the run.
-/

/-- Python strings are modelled as lists of characters. -/
abbrev Str := List Char

/-- Boolean test that `pat` is a prefix of `s` (model of `str.startswith`). -/
def strHasPrefix : Str → Str → Bool
  | [], _ => true
  | _ :: _, [] => false
  | c :: p, d :: s => c == d && strHasPrefix p s

/-- Whitespace test used by Python's `str.strip` (model; restricted to
ASCII whitespace, which covers the documents in play). -/
def wsChar (c : Char) : Bool := c.isWhitespace

/-- Remove trailing whitespace. -/
def dropTrailingWs (s : Str) : Str := (s.reverse.dropWhile wsChar).reverse

/-- Model of Python's `str.strip()`: remove leading and trailing whitespace. -/
def pyStrip (s : Str) : Str := dropTrailingWs (s.dropWhile wsChar)

/-- Helper for `splitWs`: accumulates the current word in reverse. -/
def splitWsAux : Str → Str → List Str
  | acc, [] => if acc.isEmpty then [] else [acc.reverse]
  | acc, c :: rest =>
    if wsChar c then
      if acc.isEmpty then splitWsAux [] rest
      else acc.reverse :: splitWsAux [] rest
    else splitWsAux (c :: acc) rest

/-- Model of Python's `str.split()` with no argument: split on runs of
whitespace, dropping empty pieces (used for HTML `class` attribute tokens). -/
def splitWs (s : Str) : List Str := splitWsAux [] s

/-- Number of (possibly overlapping) occurrences of `pat` as a substring. -/
def countOcc (pat : Str) : Str → Nat
  | [] => 0
  | c :: rest => (if strHasPrefix pat (c :: rest) then 1 else 0) + countOcc pat rest

/-- Model of Python's `sep.join(pieces)`. -/
def joinSep (sep : Str) : List Str → Str
  | [] => []
  | [s] => s
  | s :: rest => s ++ sep ++ joinSep sep rest

/-! ## URL model (`urllib.parse.urljoin` as used by the source) -/

/-- Characters allowed in a URI scheme after the initial letter. -/
def isSchemeTailChar (c : Char) : Bool := c.isAlphanum || c == '+' || c == '-' || c == '.'

/-- Helper for `schemeSplit`; `acc` holds the scheme read so far, reversed. -/
def schemeSplitAux (acc : Str) : Str → Option (Str × Str)
  | [] => none
  | c :: rest =>
    if c == ':' then some (acc.reverse ++ [':'], rest)
    else if isSchemeTailChar c then schemeSplitAux (c :: acc) rest
    else none

/-- Split a URL into its `scheme:` part (colon included) and the remainder,
when the URL has an RFC 3986 scheme. -/
def schemeSplit : Str → Option (Str × Str)
  | [] => none
  | c :: rest => if c.isAlpha then schemeSplitAux [c] rest else none

/-- A URL is absolute when it carries a URI scheme. -/
def isAbsoluteUrl (u : Str) : Bool := (schemeSplit u).isSome

def httpPre : Str := "http://".toList

def httpsPre : Str := "https://".toList

/-- The `requests` library only performs `http`/`https` fetches; any other
URL raises `MissingSchema`/`InvalidSchema`, both `RequestException`s. -/
def hasHttpScheme (u : Str) : Bool := strHasPrefix httpPre u || strHasPrefix httpsPre u

def slashSlash : Str := ['/', '/']

/-- Split the part of a URL after the scheme into its `//netloc` component
(if any) and the rest (the path). -/
def authSplit (s : Str) : Str × Str :=
  if strHasPrefix slashSlash s then
    let after := s.drop 2
    (slashSlash ++ after.takeWhile (fun c => !(c == '/')),
     after.dropWhile (fun c => !(c == '/')))
  else ([], s)

/-- The directory part of a path: everything up to and including the last
slash (empty when the path has no slash). -/
def dirPart (path : Str) : Str := (path.reverse.dropWhile (fun c => !(c == '/'))).reverse

/-- Model of `urllib.parse.urljoin(base, url)` for the cases exercised by
the source: an empty `url` keeps the base, a `url` with a scheme stands
alone, a `//`-rooted `url` keeps the base scheme, a `/`-rooted `url` keeps
scheme and authority, and any other `url` replaces the last path segment
of the base (dot-segment normalisation and query/fragment splitting are
not modelled; they do not affect the claims). -/
def urljoin (base url : Str) : Str :=
  if url.isEmpty then base
  else if isAbsoluteUrl url then url
  else
    let sb := schemeSplit base
    let schemeC := match sb with | some p => p.1 | none => []
    let rest := match sb with | some p => p.2 | none => base
    let ap := authSplit rest
    if strHasPrefix slashSlash url then schemeC ++ url
    else if strHasPrefix ['/'] url then schemeC ++ ap.1 ++ url
    else
      let d := dirPart ap.2
      let d2 := if d.isEmpty && !ap.1.isEmpty then ['/'] else d
      schemeC ++ ap.1 ++ d2 ++ url

/-! ## HTML model (the BeautifulSoup queries used by the source) -/

/-- An HTML node: an element with a tag, attributes and children, or a
text node (`NavigableString`). -/
inductive Node where
  | element (tag : Str) (attrs : List (Str × Str)) (children : List Node)
  | text (s : Str)

mutual

/-- Decidable equality of nodes (written by hand: the automatic deriving
does not handle the nested `List Node`). -/
def Node.decEq : (a b : Node) → Decidable (a = b)
  | .text s, .text t =>
    match (inferInstance : Decidable (s = t)) with
    | isTrue h => isTrue (by rw [h])
    | isFalse h => isFalse (by intro hh; cases hh; exact h rfl)
  | .text _, .element _ _ _ => isFalse (by intro h; cases h)
  | .element _ _ _, .text _ => isFalse (by intro h; cases h)
  | .element t1 a1 c1, .element t2 a2 c2 =>
    match (inferInstance : Decidable (t1 = t2)) with
    | isFalse h => isFalse (by intro hh; cases hh; exact h rfl)
    | isTrue h1 =>
      match (inferInstance : Decidable (a1 = a2)) with
      | isFalse h => isFalse (by intro hh; cases hh; exact h rfl)
      | isTrue h2 =>
        match Node.decEqList c1 c2 with
        | isFalse h => isFalse (by intro hh; cases hh; exact h rfl)
        | isTrue h3 => isTrue (by rw [h1, h2, h3])

/-- Decidable equality of node lists. -/
def Node.decEqList : (a b : List Node) → Decidable (a = b)
  | [], [] => isTrue rfl
  | [], _ :: _ => isFalse (by intro h; cases h)
  | _ :: _, [] => isFalse (by intro h; cases h)
  | x :: xs, y :: ys =>
    match Node.decEq x y with
    | isFalse h => isFalse (by intro hh; cases hh; exact h rfl)
    | isTrue h1 =>
      match Node.decEqList xs ys with
      | isFalse h => isFalse (by intro hh; cases hh; exact h rfl)
      | isTrue h2 => isTrue (by rw [h1, h2])

end

instance : DecidableEq Node := Node.decEq

/-- Children of a node (a text node has none). -/
def Node.children : Node → List Node
  | .element _ _ c => c
  | .text _ => []

/-- Look up an attribute value (model of `tag[key]` / `tag.has_attr`). -/
def attrOf (n : Node) (key : Str) : Option Str :=
  match n with
  | .element _ attrs _ => (attrs.find? (fun p => p.1 == key)).map (fun p => p.2)
  | .text _ => none

def ulTag : Str := "ul".toList
def liTag : Str := "li".toList
def aTag : Str := "a".toList
def divTag : Str := "div".toList
def idAttr : Str := "id".toList
def hrefAttr : Str := "href".toList
def classAttr : Str := "class".toList
def iMainId : Str := "i_main".toList
def bMainId : Str := "b_main".toList
def rLetraClass : Str := "rLetra".toList

/-- Tag-name test for element nodes. -/
def isTag (t : Str) (n : Node) : Bool :=
  match n with
  | .element tg _ _ => tg == t
  | .text _ => false

/-- Model of `soup.find(tag, id=theId)`'s match condition. -/
def isTagWithId (t theId : Str) (n : Node) : Bool :=
  isTag t n && ((attrOf n idAttr).any (fun v => v == theId))

/-- Model of the `class_=cls` match condition: the `class` attribute,
split on whitespace, contains the requested token. -/
def hasClass (cls : Str) (n : Node) : Bool :=
  (attrOf n classAttr).any (fun v => (splitWs v).contains cls)

/-- Match condition of `soup.find('div', class_='rLetra')`. -/
def isDivWithClass (cls : Str) (n : Node) : Bool := isTag divTag n && hasClass cls n

mutual

/-- Matches of `p` in one node's subtree, in document (pre)order: the
node itself first (when it is a matching element), then its descendants.
This is BeautifulSoup's `find_all` traversal order. -/
def nodeFindAll (p : Node → Bool) : Node → List Node
  | .text _ => []
  | .element t a c =>
    (if p (.element t a c) then [Node.element t a c] else []) ++ nodesFindAll p c

/-- Matches of `p` in a forest, in document (pre)order. -/
def nodesFindAll (p : Node → Bool) : List Node → List Node
  | [] => []
  | n :: rest => nodeFindAll p n ++ nodesFindAll p rest

end

/-- Model of `tag.find_all(...)`: search the descendants of a node. -/
def elemFindAll (p : Node → Bool) (n : Node) : List Node := nodesFindAll p n.children

/-- Model of `tag.find(...)`: first matching descendant. -/
def elemFind (p : Node → Bool) (n : Node) : Option Node := (elemFindAll p n).head?

/-- Model of `soup.find(...)`: first match in the whole document. -/
def docFind (p : Node → Bool) (doc : List Node) : Option Node := (nodesFindAll p doc).head?

mutual

/-- The text-node strings in one node's subtree, in document order. -/
def nodeTextStrings : Node → List Str
  | .text s => [s]
  | .element _ _ c => textStrings c

/-- All text-node strings below a forest, in document order. -/
def textStrings : List Node → List Str
  | [] => []
  | n :: rest => nodeTextStrings n ++ textStrings rest

end

/-- The literal line-break marker used by `get_text(separator='<br>')`. -/
def brMark : Str := "<br>".toList

/-- Model of `tag.get_text(separator=sep, strip=True)`: each descendant
string is stripped, empty results are skipped, and the remainder is
joined with the separator. -/
def getTextStrip (sep : Str) (n : Node) : Str :=
  joinSep sep (((textStrings n.children).map pyStrip).filter (fun s => !s.isEmpty))

/-! ## Network model and the three scraping functions -/

/-- Result of one HTTP fetch: `failure` covers every
`requests.RequestException` (connection error, timeout, and the
`HTTPError` raised by `raise_for_status` on a non-2xx status);
`success` carries the parsed document. -/
inductive FetchResult where
  | failure
  | success (doc : List Node)
deriving DecidableEq

/-- The query parameters sent by `fetch_all_artists` for one listing page:
`{"ini": ini, "req_pais": "ar", "req_estilo": estilo_id}`. -/
structure ReqParams where
  ini : Nat
  req_pais : Str
  req_estilo : Str
deriving DecidableEq

def arCountry : Str := "ar".toList

/-- The request issued at offset `ini` for style `estilo_id`. -/
def mkReq (estilo_id : Str) (ini : Nat) : ReqParams :=
  { ini := ini, req_pais := arCountry, req_estilo := estilo_id }

/-- The site root against which `fetch_all_artists` resolves hrefs. -/
def siteRoot : Str := "https://acordes.lacuerda.net".toList

/-- The fixed listing endpoint (query parameters carry the variation). -/
def indicesUrl : Str := "https://acordes.lacuerda.net/ARCH/indices.php".toList

/-- The body of the `for li in main_ul.find_all("li")` loop: for each
`<li>`, take its first `<a>` descendant, and when that anchor has an
`href`, strip it and resolve it against the site root. -/
def artistLinksOfUl (main_ul : Node) : List Str :=
  (elemFindAll (isTag liTag) main_ul).filterMap fun li =>
    match elemFind (isTag aTag) li with
    | none => none
    | some a_tag =>
      match attrOf a_tag hrefAttr with
      | none => none
      | some href => some (urljoin siteRoot (pyStrip href))

/-- The `while True` loop of `fetch_all_artists`, with explicit fuel.
Returns the list of requests issued (the I/O trace) and, when the loop
reached one of its three `break`s within the fuel, the accumulated
artist list; a `none` second component means the fuel was exhausted
with the loop still running.  `time.sleep(delay)` has no effect on the
returned value and is not modelled. -/
def fetchLoop (net : ReqParams → FetchResult) (estilo_id : Str) (increment : Nat) :
    Nat → Nat → List ReqParams → List Str → List ReqParams × Option (List Str)
  | 0, _, reqs, _ => (reqs, none)
  | fuel + 1, ini, reqs, all_artists =>
    let params := mkReq estilo_id ini
    let reqs2 := reqs ++ [params]
    match net params with
    | .failure => (reqs2, some all_artists)
    | .success soup =>
      match docFind (isTagWithId ulTag iMainId) soup with
      | none => (reqs2, some all_artists)
      | some main_ul =>
        let artist_links := artistLinksOfUl main_ul
        if artist_links.isEmpty then (reqs2, some all_artists)
        else fetchLoop net estilo_id increment fuel (ini + increment) reqs2
          (all_artists ++ artist_links)

/-- Model of `fetch_all_artists(estilo_id, increment, max_retries, delay)`.
The `net` oracle stands for the HTTP transport; ` max_retries` and
`delay` are bound exactly as in the source signature (the source never
reads `max_retries`, and `delay` only feeds `time.sleep`). -/
def fetch_all_artists (net : ReqParams → FetchResult) (estilo_id : Str)
    (increment : Nat) ( max_retries : Nat) (delay : Nat) (fuel : Nat) :
    List ReqParams × Option (List Str) :=
  fetchLoop net estilo_id increment fuel 0 [] []

/-- What one listing page contributes: `none` when the fetch fails or the
`<ul id="i_main">` container is absent, otherwise the extracted links. -/
def pageLinks (r : FetchResult) : Option (List Str) :=
  match r with
  | .failure => none
  | .success soup =>
    match docFind (isTagWithId ulTag iMainId) soup with
    | none => none
    | some main_ul => some (artistLinksOfUl main_ul)

/-- A response on which the paginator stops: failed fetch, missing
container, or container with no extractable link. -/
def stopsRun (r : FetchResult) : Bool :=
  match pageLinks r with
  | none => true
  | some links => links.isEmpty

/-- Model of `requests.get(url, ...)` for the two single-page extractors:
`requests` raises (a `RequestException`) before any network traffic when
the URL does not carry an `http`/`https` scheme. -/
def requestsGet (net : Str → FetchResult) (url : Str) : FetchResult :=
  if hasHttpScheme url then net url else .failure

/-- Model of `extract_urls_from_page(page_url)`: on transport failure
return `[]`; find `<ul id="b_main">`, collect every `<a>` descendant
that has an `href`, strip each href and resolve it against `page_url`. -/
def extract_urls_from_page (net : Str → FetchResult) (page_url : Str) : List Str :=
  match requestsGet net page_url with
  | .failure => []
  | .success soup =>
    match docFind (isTagWithId ulTag bMainId) soup with
    | none => []
    | some b_main =>
      (elemFindAll (fun n => isTag aTag n && (attrOf n hrefAttr).isSome) b_main).filterMap
        fun a => (attrOf a hrefAttr).map (fun href => urljoin page_url (pyStrip href))

/-- Model of `extract_lyrics_from_url(page_url)`: on transport failure or
missing `<div class="rLetra">` return `""`; otherwise
`get_text(separator='<br>', strip=True)` of the first such div. -/
def extract_lyrics_from_url (net : Str → FetchResult) (page_url : Str) : Str :=
  match requestsGet net page_url with
  | .failure => []
  | .success soup =>
    match docFind (isDivWithClass rLetraClass) soup with
    | none => []
    | some r_letra_div => getTextStrip brMark r_letra_div

/-! ## Catalog lookup (`search_spotify`) -/

/-- The fields of one track object that the source reads
(`track['name']`, `track['album']['name']`, `track['album']['release_date']`). -/
structure SpotifyTrack where
  name : Str
  album_name : Str
  album_release_date : Str
deriving DecidableEq

/-- Token-endpoint response: status code, and the `access_token` field of
the JSON body (read only on status 200). -/
structure AuthResponse where
  status_code : Nat
  access_token : Str
deriving DecidableEq

/-- Search-endpoint response: status code, and
`data.get('tracks', {}).get('items', [])` of the JSON body. -/
structure SearchResponse where
  status_code : Nat
  items : List SpotifyTrack
deriving DecidableEq

/-- Value returned by `search_spotify`: the empty dict `{}`, or the dict
`{"track": ..., "album": ..., "release_date": ..., "metadata": ...}`. -/
inductive SpotifyResult where
  | empty
  | found (track album release_date : Str) (metadata : List SpotifyTrack)
deriving DecidableEq

/-- The search query string `f'track:{song} artist:{artist}'`. -/
def searchQuery (song artist : Str) : Str :=
  "track:".toList ++ song ++ " artist:".toList ++ artist

/-- Model of `search_spotify(song, artist, ...)`.  `authResp` is the
response of the token endpoint; `searchNet` maps the query string to the
response of the search endpoint.  `Except.error ()` models the
`raise(RuntimeError)` on failed authentication. -/
def search_spotify (song artist : Str) (authResp : AuthResponse)
    (searchNet : Str → SearchResponse) : Except Unit SpotifyResult :=
  if authResp.status_code = 200 then
    let searchResp := searchNet (searchQuery song artist)
    if searchResp.status_code = 200 then
      match searchResp.items with
      | [] => .ok .empty
      | track :: rest =>
        .ok (.found track.name track.album_name track.album_release_date (track :: rest))
    else .ok .empty
  else .error ()

/-! ## Lemmas about the pagination loop -/

/-- Unfolding: the fetch at the current offset fails or finds no
container, so the loop breaks. -/
lemma fetchLoop_stop_none (net : ReqParams → FetchResult) (e : Str) (inc fuel ini : Nat)
    (reqs : List ReqParams) (acc : List Str)
    (h : pageLinks (net (mkReq e ini)) = none) :
    fetchLoop net e inc (fuel + 1) ini reqs acc = (reqs ++ [mkReq e ini], some acc) := by
  cases hn : net (mkReq e ini) with
  | failure => simp [fetchLoop, hn]
  | success soup =>
    cases h2 : docFind (isTagWithId ulTag iMainId) soup with
    | none => simp [fetchLoop, hn, h2]
    | some main_ul => simp [pageLinks, hn, h2] at h

/-- Unfolding: the container is present but contributes no link, so the
loop breaks. -/
lemma fetchLoop_stop_empty (net : ReqParams → FetchResult) (e : Str) (inc fuel ini : Nat)
    (reqs : List ReqParams) (acc : List Str)
    (h : pageLinks (net (mkReq e ini)) = some []) :
    fetchLoop net e inc (fuel + 1) ini reqs acc = (reqs ++ [mkReq e ini], some acc) := by
  cases hn : net (mkReq e ini) with
  | failure => simp [pageLinks, hn] at h
  | success soup =>
    cases h2 : docFind (isTagWithId ulTag iMainId) soup with
    | none => simp [fetchLoop, hn, h2]
    | some main_ul =>
      have h3 : artistLinksOfUl main_ul = [] := by
        simpa [pageLinks, hn, h2] using h
      simp [fetchLoop, hn, h2, h3]

/-- Unfolding: the page contributes links, so the loop accumulates them
and advances the offset. -/
lemma fetchLoop_step (net : ReqParams → FetchResult) (e : Str) (inc fuel ini : Nat)
    (reqs : List ReqParams) (acc : List Str) (l : Str) (ls : List Str)
    (h : pageLinks (net (mkReq e ini)) = some (l :: ls)) :
    fetchLoop net e inc (fuel + 1) ini reqs acc =
      fetchLoop net e inc fuel (ini + inc) (reqs ++ [mkReq e ini]) (acc ++ l :: ls) := by
  cases hn : net (mkReq e ini) with
  | failure => simp [pageLinks, hn] at h
  | success soup =>
    cases h2 : docFind (isTagWithId ulTag iMainId) soup with
    | none => simp [pageLinks, hn, h2] at h
    | some main_ul =>
      have h3 : artistLinksOfUl main_ul = l :: ls := by
        simpa [pageLinks, hn, h2] using h
      simp [fetchLoop, hn, h2, h3]

/-- A run that sees `k` link-bearing pages and then a stopping page:
the trace is the arithmetic progression of the `k + 1` visited offsets
and the result is the concatenation of the pages' links, in visit
order.  Stated for a loop started at page index `j` so that it can be
proved by induction on `k`. -/
lemma fetchLoop_run (net : ReqParams → FetchResult) (e : Str) (inc : Nat)
    (pages : Nat → List Str) :
    ∀ (k j m : Nat) (reqs : List ReqParams) (acc : List Str),
    (∀ i, i < k → pageLinks (net (mkReq e ((j + i) * inc))) = some (pages (j + i)) ∧
      pages (j + i) ≠ []) →
    stopsRun (net (mkReq e ((j + k) * inc))) = true →
    fetchLoop net e inc (k + 1 + m) (j * inc) reqs acc =
      (reqs ++ (List.range (k + 1)).map (fun i => mkReq e ((j + i) * inc)),
       some (acc ++ ((List.range k).map (fun i => pages (j + i))).flatten)) := by
  intro k
  induction k with
  | zero =>
    intro j m reqs acc _ hstop
    have hs : fetchLoop net e inc (0 + 1 + m) (j * inc) reqs acc =
        fetchLoop net e inc (m + 1) (j * inc) reqs acc := by ring_nf
    unfold stopsRun at hstop
    simp only [Nat.add_zero] at hstop
    rw [hs]
    rcases hp : pageLinks (net (mkReq e (j * inc))) with _ | links
    · rw [fetchLoop_stop_none net e inc m (j * inc) reqs acc hp]
      simp [List.range_succ]
    · rw [hp] at hstop
      simp only [List.isEmpty_iff] at hstop
      subst hstop
      rw [fetchLoop_stop_empty net e inc m (j * inc) reqs acc hp]
      simp [List.range_succ]
  | succ k ih =>
    intro j m reqs acc hgood hstop
    have h0 := hgood 0 (Nat.succ_pos k)
    rw [Nat.add_zero] at h0
    have hs : fetchLoop net e inc (k + 1 + 1 + m) (j * inc) reqs acc =
        fetchLoop net e inc ((k + 1 + m) + 1) (j * inc) reqs acc := by ring_nf
    rcases hlinks : pages j with _ | ⟨l, ls⟩
    · exact absurd hlinks h0.2
    · have hp : pageLinks (net (mkReq e (j * inc))) = some (l :: ls) := by
        rw [h0.1, hlinks]
      rw [hs, fetchLoop_step net e inc (k + 1 + m) (j * inc) reqs acc l ls hp]
      have harith : j * inc + inc = (j + 1) * inc := by ring
      rw [harith]
      rw [ih (j + 1) m (reqs ++ [mkReq e (j * inc)]) (acc ++ l :: ls)
        (fun i hi => by
          have hh := hgood (i + 1) (by omega)
          have harg : j + (i + 1) = j + 1 + i := by ring
          rw [harg] at hh
          exact hh)
        (by
          have harg : j + 1 + k = j + (k + 1) := by ring
          rw [harg]
          exact hstop)]
      have hmapr : ∀ (f : Nat → ReqParams),
          (List.range (k + 1 + 1)).map f = f 0 :: (List.range (k + 1)).map (fun i => f (i + 1)) := by
        intro f
        rw [List.range_succ_eq_map, List.map_cons, List.map_map]
        rfl
      have hmapp : ∀ (f : Nat → List Str),
          (List.range (k + 1)).map f = f 0 :: (List.range k).map (fun i => f (i + 1)) := by
        intro f
        rw [List.range_succ_eq_map, List.map_cons, List.map_map]
        rfl
      rw [hmapr, hmapp, List.flatten_cons]
      simp only [Nat.add_zero, List.append_assoc, List.cons_append, List.nil_append,
        Prod.mk.injEq]
      rw [hlinks]
      constructor
      · congr 2
        apply List.map_congr_left
        intro i _
        have harg2 : j + 1 + i = j + (i + 1) := by omega
        rw [harg2]
      · simp only [List.cons_append]
        have hmeq : (List.range k).map (fun i => pages (j + 1 + i)) =
            (List.range k).map (fun i => pages (j + (i + 1))) := by
          apply List.map_congr_left
          intro i _
          have harg2 : j + 1 + i = j + (i + 1) := by omega
          rw [harg2]
        rw [hmeq]

/-- Whatever happens, the requests issued by the loop are the arithmetic
progression of offsets `ini, ini + inc, ini + 2 * inc, ...`. -/
lemma fetchLoop_trace (net : ReqParams → FetchResult) (e : Str) (inc : Nat) :
    ∀ (fuel ini : Nat) (reqs : List ReqParams) (acc : List Str), ∃ n,
    (fetchLoop net e inc fuel ini reqs acc).1 =
      reqs ++ (List.range n).map (fun i => mkReq e (ini + i * inc)) := by
  intro fuel
  induction fuel with
  | zero =>
    intro ini reqs acc
    exact ⟨0, by simp [fetchLoop]⟩
  | succ fuel ih =>
    intro ini reqs acc
    rcases hp : pageLinks (net (mkReq e ini)) with _ | ⟨_ | ⟨l, ls⟩⟩
    · refine ⟨1, ?_⟩
      rw [fetchLoop_stop_none net e inc fuel ini reqs acc hp]
      simp [List.range_succ]
    · refine ⟨1, ?_⟩
      rw [fetchLoop_stop_empty net e inc fuel ini reqs acc hp]
      simp [List.range_succ]
    · obtain ⟨n, hn⟩ := ih (ini + inc) (reqs ++ [mkReq e ini]) (acc ++ l :: ls)
      refine ⟨n + 1, ?_⟩
      rw [fetchLoop_step net e inc fuel ini reqs acc l ls hp, hn]
      rw [List.range_succ_eq_map, List.map_cons, List.map_map]
      simp only [Nat.zero_mul, Nat.add_zero, List.append_assoc, List.cons_append,
        List.nil_append]
      congr 1
      congr 1
      apply List.map_congr_left
      intro i _
      simp only [Function.comp_apply]
      congr 1
      simp only [Nat.succ_eq_add_one]
      ring

/-! ## Lemmas about URL absoluteness -/

/-- `strHasPrefix` agrees with list-prefix decomposition. -/
lemma strHasPrefix_iff (p : Str) : ∀ s, strHasPrefix p s = true ↔ ∃ t, s = p ++ t := by
  induction p with
  | nil =>
    intro s
    simp [strHasPrefix]
  | cons c p ih =>
    intro s
    cases s with
    | nil =>
      simp [strHasPrefix]
    | cons d s =>
      simp only [strHasPrefix, Bool.and_eq_true, beq_iff_eq, ih, List.cons_append,
        List.cons.injEq]
      constructor
      · rintro ⟨hcd, t, ht⟩
        exact ⟨t, hcd.symm, ht⟩
      · rintro ⟨t, hdc, ht⟩
        exact ⟨hdc.symm, t, ht⟩

lemma absUrl_http_colon (t : Str) : isAbsoluteUrl ("http:".toList ++ t) = true := rfl

lemma absUrl_https_colon (t : Str) : isAbsoluteUrl ("https:".toList ++ t) = true := rfl

lemma absUrl_httpPre (t : Str) : isAbsoluteUrl (httpPre ++ t) = true := rfl

lemma absUrl_httpsPre (t : Str) : isAbsoluteUrl (httpsPre ++ t) = true := rfl

/-- Joining any href against a base with an `http`/`https` scheme yields
an absolute URL. -/
lemma urljoin_abs_of_http (base r : Str) (h : hasHttpScheme base = true) :
    isAbsoluteUrl (urljoin base r) = true := by
  unfold hasHttpScheme at h
  have hor : strHasPrefix httpPre base = true ∨ strHasPrefix httpsPre base = true := by
    cases h1 : strHasPrefix httpPre base
    · right
      simpa [h1] using h
    · left
      rfl
  rcases hor with h1 | h1
  · obtain ⟨v, hv⟩ := (strHasPrefix_iff httpPre base).mp h1
    subst hv
    rw [urljoin]
    have hsch : schemeSplit (httpPre ++ v) = some ("http:".toList, slashSlash ++ v) := rfl
    split_ifs with hemp habs hss hsl
    · exact absUrl_httpPre v
    · exact habs
    · simp only [hsch]
      exact absUrl_http_colon _
    · simp only [hsch]
      rw [List.append_assoc]
      exact absUrl_http_colon _
    · simp only [hsch]
      rw [List.append_assoc, List.append_assoc]
      exact absUrl_http_colon _
  · obtain ⟨v, hv⟩ := (strHasPrefix_iff httpsPre base).mp h1
    subst hv
    rw [urljoin]
    have hsch : schemeSplit (httpsPre ++ v) = some ("https:".toList, slashSlash ++ v) := rfl
    split_ifs with hemp habs hss hsl
    · exact absUrl_httpsPre v
    · exact habs
    · simp only [hsch]
      exact absUrl_https_colon _
    · simp only [hsch]
      rw [List.append_assoc]
      exact absUrl_https_colon _
    · simp only [hsch]
      rw [List.append_assoc, List.append_assoc]
      exact absUrl_https_colon _

/-- Every link extracted from a listing container is absolute: it is the
join of an href against the (absolute) site root. -/
lemma artistLinksOfUl_abs (ul : Node) : ∀ u ∈ artistLinksOfUl ul, isAbsoluteUrl u = true := by
  intro u hu
  unfold artistLinksOfUl at hu
  rw [List.mem_filterMap] at hu
  obtain ⟨li, _, hli⟩ := hu
  rcases hfa : elemFind (isTag aTag) li with _ | a
  · rw [hfa] at hli
    cases hli
  · rw [hfa] at hli
    dsimp only at hli
    rcases hattr : attrOf a hrefAttr with _ | href
    · rw [hattr] at hli
      cases hli
    · rw [hattr] at hli
      dsimp only at hli
      cases hli
      exact urljoin_abs_of_http siteRoot _ (by decide)

/-- Loop invariant: if everything accumulated so far is absolute, so is
everything in a terminated run's result. -/
lemma fetchLoop_links_abs (net : ReqParams → FetchResult) (e : Str) (inc : Nat) :
    ∀ (fuel ini : Nat) (reqs : List ReqParams) (acc : List Str),
    (∀ u ∈ acc, isAbsoluteUrl u = true) →
    ∀ links, (fetchLoop net e inc fuel ini reqs acc).2 = some links →
    ∀ u ∈ links, isAbsoluteUrl u = true := by
  intro fuel
  induction fuel with
  | zero =>
    intro ini reqs acc hacc links h
    simp [fetchLoop] at h
  | succ fuel ih =>
    intro ini reqs acc hacc links h
    rcases hp : pageLinks (net (mkReq e ini)) with _ | ⟨_ | ⟨l, ls⟩⟩
    · rw [fetchLoop_stop_none net e inc fuel ini reqs acc hp] at h
      cases h
      exact hacc
    · rw [fetchLoop_stop_empty net e inc fuel ini reqs acc hp] at h
      cases h
      exact hacc
    · rw [fetchLoop_step net e inc fuel ini reqs acc l ls hp] at h
      have hlinks : ∀ u ∈ l :: ls, isAbsoluteUrl u = true := by
        unfold pageLinks at hp
        rcases hn : net (mkReq e ini) with _ | soup
        · rw [hn] at hp
          cases hp
        · rw [hn] at hp
          dsimp only at hp
          rcases hd : docFind (isTagWithId ulTag iMainId) soup with _ | main_ul
          · rw [hd] at hp
            cases hp
          · rw [hd] at hp
            dsimp only at hp
            have heq : artistLinksOfUl main_ul = l :: ls := Option.some.inj hp
            rw [← heq]
            exact artistLinksOfUl_abs main_ul
      refine ih (ini + inc) (reqs ++ [mkReq e ini]) (acc ++ l :: ls) ?_ links h
      intro u hu
      rcases List.mem_append.mp hu with hu | hu
      · exact hacc u hu
      · exact hlinks u hu

/-! ## Lemmas about text flattening (`get_text` with the `<br>` marker) -/

/-- Unfolding equation of `countOcc` on a cons cell. -/
lemma countOcc_cons (pat : Str) (c : Char) (l : Str) :
    countOcc pat (c :: l) = (if strHasPrefix pat (c :: l) then 1 else 0) + countOcc pat l := rfl

/-- The head of the marker is `<`, so a string headed by another
character cannot start with the marker. -/
lemma strHasPrefix_brMark_false (c : Char) (l : Str) (hc : ¬ c = '<') :
    strHasPrefix brMark (c :: l) = false := by
  unfold brMark strHasPrefix
  simp only [String.toList]
  have hbeq : (('<' : Char) == c) = false := by
    simp only [beq_eq_false_iff_ne, ne_eq]
    exact fun hh => hc hh.symm
  simp [hbeq]

/-- The marker cannot occur in a string without a `<` character. -/
lemma countOcc_brMark_no_lt (s : Str) (h : ¬ '<' ∈ s) : countOcc brMark s = 0 := by
  induction s with
  | nil => rfl
  | cons c rest ih =>
    have hc : ¬ c = '<' := fun hc => h (hc ▸ List.mem_cons_self c rest)
    rw [countOcc_cons, strHasPrefix_brMark_false c rest hc]
    simp only [Bool.false_eq_true, if_false, Nat.zero_add]
    exact ih (fun hm => h (List.mem_cons_of_mem c hm))

/-- Prepending `<`-free text does not add marker occurrences. -/
lemma countOcc_brMark_append (p t : Str) (h : ¬ '<' ∈ p) :
    countOcc brMark (p ++ t) = countOcc brMark t := by
  induction p with
  | nil => rfl
  | cons c rest ih =>
    have hc : ¬ c = '<' := fun hc => h (hc ▸ List.mem_cons_self c rest)
    show countOcc brMark (c :: (rest ++ t)) = countOcc brMark t
    rw [countOcc_cons, strHasPrefix_brMark_false c (rest ++ t) hc]
    simp only [Bool.false_eq_true, if_false, Nat.zero_add]
    exact ih (fun hm => h (List.mem_cons_of_mem c hm))

/-- A marker at the front is counted exactly once. -/
lemma countOcc_brMark_cons (t : Str) :
    countOcc brMark (brMark ++ t) = 1 + countOcc brMark t := by
  show countOcc brMark ('<' :: 'b' :: 'r' :: '>' :: t) = 1 + countOcc brMark t
  have h1 : strHasPrefix brMark ('<' :: 'b' :: 'r' :: '>' :: t) = true := by
    unfold brMark
    simp [strHasPrefix]
  have h2 : strHasPrefix brMark ('b' :: 'r' :: '>' :: t) = false :=
    strHasPrefix_brMark_false _ _ (by decide)
  have h3 : strHasPrefix brMark ('r' :: '>' :: t) = false :=
    strHasPrefix_brMark_false _ _ (by decide)
  have h4 : strHasPrefix brMark ('>' :: t) = false :=
    strHasPrefix_brMark_false _ _ (by decide)
  rw [countOcc_cons, h1, countOcc_cons, h2, countOcc_cons, h3, countOcc_cons, h4]
  simp

/-- Joining nonempty `<`-free pieces with the marker yields exactly
one marker occurrence fewer than there are pieces. -/
lemma countOcc_joinSep (ps : List Str) (h : ∀ p ∈ ps, p ≠ [] ∧ ¬ '<' ∈ p) :
    countOcc brMark (joinSep brMark ps) = ps.length - 1 := by
  induction ps with
  | nil => rfl
  | cons p rest ih =>
    cases rest with
    | nil =>
      show countOcc brMark p = 1 - 1
      rw [countOcc_brMark_no_lt p (h p (List.mem_cons_self p [])).2]
    | cons q rest2 =>
      show countOcc brMark (p ++ brMark ++ joinSep brMark (q :: rest2)) =
        (q :: rest2).length + 1 - 1
      rw [List.append_assoc,
        countOcc_brMark_append p _ (h p (List.mem_cons_self p _)).2,
        countOcc_brMark_cons,
        ih (fun r hr => h r (List.mem_cons_of_mem p hr))]
      simp only [List.length_cons]
      omega

/-- The head surviving `dropWhile` fails the predicate. -/
lemma dropWhile_head_false (p : Char → Bool) (l : Str) (c : Char) (t : Str)
    (h : l.dropWhile p = c :: t) : p c = false := by
  induction l with
  | nil => cases h
  | cons d rest ih =>
    rw [List.dropWhile_cons] at h
    by_cases hd : p d = true
    · rw [if_pos hd] at h
      exact ih h
    · rw [if_neg hd] at h
      cases h
      exact Bool.eq_false_iff.mpr hd

/-- `dropTrailingWs` only cuts a (whitespace) suffix. -/
lemma dropTrailingWs_append (m : Str) :
    dropTrailingWs m ++ (m.reverse.takeWhile wsChar).reverse = m := by
  unfold dropTrailingWs
  have h := List.takeWhile_append_dropWhile wsChar m.reverse
  calc (m.reverse.dropWhile wsChar).reverse ++ (m.reverse.takeWhile wsChar).reverse
      = (m.reverse.takeWhile wsChar ++ m.reverse.dropWhile wsChar).reverse := by
        rw [List.reverse_append]
    _ = m.reverse.reverse := by rw [h]
    _ = m := List.reverse_reverse m

/-- A nonempty stripped string starts with a non-whitespace character. -/
lemma pyStrip_head_not_ws (s : Str) (c : Char) (t : Str)
    (h : pyStrip s = c :: t) : wsChar c = false := by
  unfold pyStrip at h
  have hap := dropTrailingWs_append (s.dropWhile wsChar)
  rw [h] at hap
  rcases hdw : s.dropWhile wsChar with _ | ⟨d, r⟩
  · rw [hdw] at hap
    cases hap
  · rw [hdw] at hap
    have hcd : c = d := by
      have := congrArg (fun l => l.head?) hap
      simpa using this
    rw [hcd]
    exact dropWhile_head_false wsChar s d r hdw

/-- A nonempty stripped string ends with a non-whitespace character. -/
lemma pyStrip_last_not_ws (s : Str) (c : Char)
    (h : (pyStrip s).getLast? = some c) : wsChar c = false := by
  unfold pyStrip dropTrailingWs at h
  rw [List.getLast?_eq_head?_reverse, List.reverse_reverse] at h
  rcases hdw : (s.dropWhile wsChar).reverse.dropWhile wsChar with _ | ⟨d, r⟩
  · rw [hdw] at h
    cases h
  · rw [hdw] at h
    have hcd : d = c := by
      simpa using h
    rw [← hcd]
    exact dropWhile_head_false wsChar _ d r hdw

/-- A string whose first and last characters are not whitespace is a
fixed point of `pyStrip`. -/
lemma pyStrip_fix (l : Str)
    (hh : ∀ c, l.head? = some c → wsChar c = false)
    (hl : ∀ c, l.getLast? = some c → wsChar c = false) : pyStrip l = l := by
  cases l with
  | nil => rfl
  | cons c t =>
    have hc : wsChar c = false := hh c rfl
    have hdrop : (c :: t).dropWhile wsChar = c :: t := by
      rw [List.dropWhile_cons, if_neg (by simp [hc])]
    unfold pyStrip dropTrailingWs
    rw [hdrop]
    rcases hr : (c :: t).reverse with _ | ⟨d, r⟩
    · exact absurd hr (by simp)
    · have hd : wsChar d = false := by
        apply hl
        rw [List.getLast?_eq_head?_reverse, hr]
        rfl
      rw [List.dropWhile_cons, if_neg (by simp [hd]), ← hr]
      exact List.reverse_reverse _

/-- A join of nonempty pieces is nonempty. -/
lemma joinSep_ne_nil (sep : Str) : ∀ ps : List Str, ps ≠ [] →
    (∀ p ∈ ps, p ≠ []) → joinSep sep ps ≠ [] := by
  intro ps
  induction ps with
  | nil => intro h _; exact absurd rfl h
  | cons p rest ih =>
    intro _ hall
    cases rest with
    | nil => exact hall p (List.mem_cons_self p [])
    | cons q rest2 =>
      show p ++ sep ++ joinSep sep (q :: rest2) ≠ []
      have hp : p ≠ [] := hall p (List.mem_cons_self p _)
      simp [hp]

/-- The head of a join is the head of its first (nonempty) piece. -/
lemma joinSep_head (sep : Str) (p : Str) (rest : List Str) (hp : p ≠ []) :
    (joinSep sep (p :: rest)).head? = p.head? := by
  cases rest with
  | nil => rfl
  | cons q rest2 =>
    show ((p ++ sep) ++ joinSep sep (q :: rest2)).head? = p.head?
    rw [List.head?_append, List.head?_append]
    rcases p with _ | ⟨c, t⟩
    · exact absurd rfl hp
    · rfl

/-- The last element of a join is the last element of its last piece. -/
lemma joinSep_last (sep : Str) : ∀ ps : List Str, ps ≠ [] → (∀ p ∈ ps, p ≠ []) →
    ∃ q, q ∈ ps ∧ (joinSep sep ps).getLast? = q.getLast? := by
  intro ps
  induction ps with
  | nil => intro h _; exact absurd rfl h
  | cons p rest ih =>
    intro _ hall
    cases rest with
    | nil => exact ⟨p, List.mem_cons_self p [], rfl⟩
    | cons q rest2 =>
      obtain ⟨q2, hq2mem, hq2⟩ := ih (by simp) (fun r hr => hall r (List.mem_cons_of_mem p hr))
      refine ⟨q2, List.mem_cons_of_mem p hq2mem, ?_⟩
      show ((p ++ sep) ++ joinSep sep (q :: rest2)).getLast? = q2.getLast?
      rw [List.getLast?_append]
      have hj : joinSep sep (q :: rest2) ≠ [] :=
        joinSep_ne_nil sep (q :: rest2) (by simp)
          (fun r hr => hall r (List.mem_cons_of_mem p hr))
      have : joinSep sep (q :: rest2) = joinSep sep (q :: rest2) := rfl
      rcases hg : (joinSep sep (q :: rest2)).getLast? with _ | d
      · exact absurd (List.getLast?_eq_none_iff.mp hg) hj
      · rw [hg] at hq2
        simp [Option.or, hq2]

/-- Collecting text strings from a forest of pure text nodes. -/
lemma textStrings_map_text (texts : List Str) :
    textStrings (texts.map Node.text) = texts := by
  induction texts with
  | nil => simp [textStrings]
  | cons t rest ih => simp [textStrings, nodeTextStrings, ih]

/-- `get_text('<br>', strip=True)` on a block whose children are exactly
`N` text nodes, each stripping to a nonempty `<`-free string: the result
contains exactly `N - 1` marker occurrences and is already stripped. -/
lemma getTextStrip_spec (d : Node) (texts : List Str)
    (hch : d.children = texts.map Node.text)
    (hne : ∀ t ∈ texts, pyStrip t ≠ [])
    (hlt : ∀ t ∈ texts, ¬ '<' ∈ pyStrip t) :
    countOcc brMark (getTextStrip brMark d) = texts.length - 1 ∧
    pyStrip (getTextStrip brMark d) = getTextStrip brMark d := by
  unfold getTextStrip
  rw [hch, textStrings_map_text]
  have hfilter : ((texts.map pyStrip).filter (fun s => !s.isEmpty)) = texts.map pyStrip := by
    apply List.filter_eq_self.mpr
    intro p hp
    obtain ⟨t, ht, rfl⟩ := List.mem_map.mp hp
    simp [List.isEmpty_eq_false.mpr (hne t ht)]
  rw [hfilter]
  have hcond : ∀ p ∈ texts.map pyStrip, p ≠ [] ∧ ¬ '<' ∈ p := by
    intro p hp
    obtain ⟨t, ht, rfl⟩ := List.mem_map.mp hp
    exact ⟨hne t ht, hlt t ht⟩
  constructor
  · rw [countOcc_joinSep _ hcond]
    simp
  · rcases hts : texts.map pyStrip with _ | ⟨p, rest⟩
    · rfl
    · have hcond2 : ∀ q ∈ p :: rest, q ≠ [] ∧ ¬ '<' ∈ q := by
        rw [← hts]
        exact hcond
      apply pyStrip_fix
      · intro c hc
        rw [joinSep_head brMark p rest (hcond2 p (List.mem_cons_self p rest)).1] at hc
        have hpmem : p ∈ texts.map pyStrip := by
          rw [hts]
          exact List.mem_cons_self p rest
        obtain ⟨t0, _, hp0⟩ := List.mem_map.mp hpmem
        rcases hp1 : p with _ | ⟨c0, t1⟩
        · rw [hp1] at hc
          cases hc
        · rw [hp1] at hc
          have hcc : c0 = c := by simpa using hc
          rw [hp1] at hp0
          rw [← hcc]
          exact pyStrip_head_not_ws t0 c0 t1 hp0
      · intro c hc
        obtain ⟨q, hqmem, hq⟩ := joinSep_last brMark (p :: rest) (by simp)
          (fun r hr => (hcond2 r hr).1)
        rw [hq] at hc
        have hqmem2 : q ∈ texts.map pyStrip := by
          rw [hts]
          exact hqmem
        obtain ⟨tq, _, hq0⟩ := List.mem_map.mp hqmem2
        apply pyStrip_last_not_ws tq c
        rw [hq0]
        exact hc

/-! ## Concrete fixtures for witnesses and counterexamples -/

/-- A style id used in concrete runs. -/
def estiloW : Str := "6".toList

/-- A list item holding a single anchor with the given href. -/
def mkLi (href : Str) : Node := .element liTag [] [.element aTag [(hrefAttr, href)] []]

def wH1 : Str := "/uv/".toList
def wH2 : Str := "/a7x/".toList
def wH3 : Str := "/zz/".toList

/-- A listing container with three artist anchors. -/
def wListingUl : Node := .element ulTag [(idAttr, iMainId)] [mkLi wH1, mkLi wH2, mkLi wH3]

def wListingDoc : List Node := [wListingUl]

/-- The links that `wListingUl` contributes. -/
def wLinks : List Str := artistLinksOfUl wListingUl

/-- A page without the listing container. -/
def wEmptyDoc : List Node := [Node.element ("p".toList) [] []]

/-- Witness network: offset 0 lists three artists, every other offset has
no container. -/
def wNet : ReqParams → FetchResult := fun p =>
  if p.ini = 0 then .success wListingDoc else .success wEmptyDoc

/-- Network for the C6 witness: offset 0 lists three artists, every other
offset fails at transport level. -/
def wNetFail : ReqParams → FetchResult := fun p =>
  if p.ini = 0 then .success wListingDoc else .failure

/-- Network that fails on every request. -/
def wNetFail0 : ReqParams → FetchResult := fun _ => .failure

/-- Network whose only stopping page sits at offset 1, which the loop
(with increment 50) never visits. -/
def cNetOffOne : ReqParams → FetchResult := fun p =>
  if p.ini = 1 then .success wEmptyDoc else .success wListingDoc

/-- Network that serves a link-bearing listing page at every offset. -/
def cNetAlways : ReqParams → FetchResult := fun _ => .success wListingDoc

/-- A content-page URL used in concrete extractor runs. -/
def wPageUrl : Str := "https://acordes.lacuerda.net/uv/s1".toList

/-- A lyrics block with two well-behaved sibling text nodes. -/
def wLyricsDiv : Node :=
  .element divTag [(classAttr, rLetraClass)] [.text ("Line1".toList), .text ("Line2".toList)]

def wLyricsNet : Str → FetchResult := fun _ => .success [wLyricsDiv]

/-- A lyrics block with two sibling text nodes, one of which is
whitespace-only. -/
def cLyricsDivA : Node :=
  .element divTag [(classAttr, rLetraClass)] [.text ("Line1".toList), .text ("   ".toList)]

def cLyricsNetA : Str → FetchResult := fun _ => .success [cLyricsDivA]

/-- A lyrics block with two sibling text nodes, the first already
containing the literal marker. -/
def cLyricsDivB : Node :=
  .element divTag [(classAttr, rLetraClass)] [.text ("a<br>b".toList), .text ("c".toList)]

def cLyricsNetB : Str → FetchResult := fun _ => .success [cLyricsDivB]

/-- A list item holding two anchors (only the first is taken by the
listing extractor). -/
def demoLi2 : Node := .element liTag []
  [.element aTag [(hrefAttr, ("/first/".toList))] [],
   .element aTag [(hrefAttr, ("/second/".toList))] []]

/-- A listing container whose single `<li>` holds two anchors. -/
def demoUl : Node := .element ulTag [(idAttr, iMainId)] [demoLi2]

/-- A document whose `<ul id="b_main">` holds the same two anchors. -/
def demoBDoc : List Node := [.element ulTag [(idAttr, bMainId)] [demoLi2]]

def demoNet : Str → FetchResult := fun _ => .success demoBDoc

/-- Concrete Spotify fixtures. -/
def wTrack : SpotifyTrack :=
  { name := "Yesterday".toList, album_name := "Help!".toList,
    album_release_date := "1965-08-06".toList }

def wAuthOk : AuthResponse := { status_code := 200, access_token := "tok".toList }

def wAuthBad : AuthResponse := { status_code := 401, access_token := [] }

def wSearchHit : Str → SearchResponse := fun _ => { status_code := 200, items := [wTrack] }

def wSearchMiss : Str → SearchResponse := fun _ => { status_code := 200, items := [] }

def wSearchErr : Str → SearchResponse := fun _ => { status_code := 500, items := [] }

/-! ## Claim theorems -/

/-- C1: against responses where the listing page at offset 0 carries the
container `<ul id="i_main">` with exactly three anchor links and the page
at offset 50 lacks the container, `fetch_all_artists` (increment 50)
issues its second request at ini = 50, then stops, and returns exactly
those three links. -/
theorem C1_listing_two_pages (net : ReqParams → FetchResult) (e : Str)
    (soup0 soup50 : List Node) (ul : Node) (h1 h2 h3 : Str) (mr dl m : Nat)
    (hnet0 : net (mkReq e 0) = .success soup0)
    (hfind : docFind (isTagWithId ulTag iMainId) soup0 = some ul)
    (hch : ul.children = [mkLi h1, mkLi h2, mkLi h3])
    (hnet50 : net (mkReq e 50) = .success soup50)
    (hno50 : docFind (isTagWithId ulTag iMainId) soup50 = none) :
    fetch_all_artists net e 50 mr dl (2 + m) =
      ([mkReq e 0, mkReq e 50],
       some [urljoin siteRoot (pyStrip h1), urljoin siteRoot (pyStrip h2),
             urljoin siteRoot (pyStrip h3)]) := by
  have hlinks : artistLinksOfUl ul =
      [urljoin siteRoot (pyStrip h1), urljoin siteRoot (pyStrip h2),
       urljoin siteRoot (pyStrip h3)] := by
    unfold artistLinksOfUl elemFindAll
    rw [hch]
    rfl
  have hp0 : pageLinks (net (mkReq e 0)) =
      some (urljoin siteRoot (pyStrip h1) ::
        [urljoin siteRoot (pyStrip h2), urljoin siteRoot (pyStrip h3)]) := by
    unfold pageLinks
    rw [hnet0]
    dsimp only
    rw [hfind]
    dsimp only
    rw [hlinks]
  have hp50 : pageLinks (net (mkReq e 50)) = none := by
    unfold pageLinks
    rw [hnet50]
    dsimp only
    rw [hno50]
  unfold fetch_all_artists
  have h2m : 2 + m = (1 + m) + 1 := by omega
  rw [h2m]
  rw [fetchLoop_step net e 50 (1 + m) 0 [] [] _ _ hp0]
  have h1m : 1 + m = m + 1 := by omega
  have h050 : 0 + 50 = 50 := by omega
  rw [h1m, h050]
  rw [fetchLoop_stop_none net e 50 m 50 ([] ++ [mkReq e 0]) _ hp50]
  simp

/-- C1 witness: the scenario instantiated with a concrete network. -/
theorem C1_listing_two_pages_witness :
    fetch_all_artists wNet estiloW 50 3 1 2 =
      ([mkReq estiloW 0, mkReq estiloW 50],
       some [urljoin siteRoot (pyStrip wH1), urljoin siteRoot (pyStrip wH2),
             urljoin siteRoot (pyStrip wH3)]) :=
  C1_listing_two_pages wNet estiloW wListingDoc wEmptyDoc wListingUl wH1 wH2 wH3 3 1 0
    (by decide) (by decide) (by decide) (by decide) (by decide)

/-- C2: for a run whose first `k` pages each contribute a nonempty link
list and which then meets a stopping page, the returned list is the
concatenation of the pages' extracted links in page-visit order (each
page's links being in document order by construction of
`artistLinksOfUl`). -/
theorem C2_order_concatenation (net : ReqParams → FetchResult) (e : Str)
    (inc mr dl : Nat) (pages : Nat → List Str) (k m : Nat)
    (hgood : ∀ i, i < k →
      pageLinks (net (mkReq e (i * inc))) = some (pages i) ∧ pages i ≠ [])
    (hstop : stopsRun (net (mkReq e (k * inc))) = true) :
    (fetch_all_artists net e inc mr dl (k + 1 + m)).2 =
      some (((List.range k).map pages).flatten) := by
  unfold fetch_all_artists
  have h := fetchLoop_run net e inc pages k 0 m [] []
    (fun i hi => by simpa using hgood i hi) (by simpa using hstop)
  rw [Nat.zero_mul] at h
  rw [h]
  simp

/-- C2 witness: one link-bearing page and one stopping page. -/
theorem C2_order_concatenation_witness :
    (fetch_all_artists wNet estiloW 50 3 1 2).2 =
      some (((List.range 1).map (fun _ => wLinks)).flatten) :=
  C2_order_concatenation wNet estiloW 50 3 1 (fun _ => wLinks) 1 0
    (by
      intro i hi
      have hi0 : i = 0 := by omega
      subst hi0
      exact ⟨by decide, by decide⟩)
    (by decide)

/-- Termination helper: if the page `k` steps ahead (along the visited
offsets) is a stopping page, fuel `k + 1` suffices. -/
lemma fetchLoop_terminates (net : ReqParams → FetchResult) (e : Str) (inc : Nat) :
    ∀ (k ini : Nat) (reqs : List ReqParams) (acc : List Str),
    stopsRun (net (mkReq e (ini + k * inc))) = true →
    ((fetchLoop net e inc (k + 1) ini reqs acc).2).isSome = true := by
  intro k
  induction k with
  | zero =>
    intro ini reqs acc hstop
    rw [Nat.zero_mul, Nat.add_zero] at hstop
    rcases hp : pageLinks (net (mkReq e ini)) with _ | ⟨_ | ⟨l, ls⟩⟩
    · rw [fetchLoop_stop_none net e inc 0 ini reqs acc hp]
      rfl
    · rw [fetchLoop_stop_empty net e inc 0 ini reqs acc hp]
      rfl
    · exfalso
      unfold stopsRun at hstop
      rw [hp] at hstop
      simp at hstop
  | succ k ih =>
    intro ini reqs acc hstop
    rcases hp : pageLinks (net (mkReq e ini)) with _ | ⟨_ | ⟨l, ls⟩⟩
    · rw [fetchLoop_stop_none net e inc (k + 1) ini reqs acc hp]
      rfl
    · rw [fetchLoop_stop_empty net e inc (k + 1) ini reqs acc hp]
      rfl
    · rw [fetchLoop_step net e inc (k + 1) ini reqs acc l ls hp]
      apply ih (ini + inc)
      have harith : ini + inc + k * inc = ini + (k + 1) * inc := by ring
      rw [harith]
      exact hstop

/-- C3 (amended): `fetch_all_artists` terminates whenever some offset of
the form `k * increment` — i.e. an offset the loop actually visits —
yields a stopping response (failed fetch, missing container, or container
with no extractable link).  As stated over every finite offset the claim
fails: see the counterexample. -/
theorem C3_terminates_on_visited_stop (net : ReqParams → FetchResult) (e : Str)
    (inc mr dl k : Nat)
    (hstop : stopsRun (net (mkReq e (k * inc))) = true) :
    ∃ fuel, ((fetch_all_artists net e inc mr dl fuel).2).isSome = true := by
  refine ⟨k + 1, ?_⟩
  unfold fetch_all_artists
  apply fetchLoop_terminates net e inc k 0 [] []
  simpa using hstop

/-- C3 witness: the stopping page at offset 50 = 1 * 50 gives termination. -/
theorem C3_terminates_on_visited_stop_witness :
    ∃ fuel, ((fetch_all_artists wNet estiloW 50 3 1 fuel).2).isSome = true :=
  C3_terminates_on_visited_stop wNet estiloW 50 3 1 1 (by decide)

/-- C3 counterexample: a network with a stopping page at the finite
offset 1 on which the loop (increment 50, offsets 0, 50, 100, ...) still
never returns: for every fuel the run is unfinished.  This refutes the
claim as stated — termination needs a stopping offset among the visited
ones, not just some finite offset. -/
theorem C3_counterexample :
    stopsRun (cNetOffOne (mkReq estiloW 1)) = true ∧
    ¬ ∃ fuel, ((fetch_all_artists cNetOffOne estiloW 50 3 1 fuel).2).isSome = true := by
  constructor
  · decide
  · rintro ⟨fuel, hfuel⟩
    have hrun : ∀ (f ini : Nat) (reqs : List ReqParams) (acc : List Str), ini % 50 = 0 →
        (fetchLoop cNetOffOne estiloW 50 f ini reqs acc).2 = none := by
      intro f
      induction f with
      | zero =>
        intro ini reqs acc _
        rfl
      | succ f ih =>
        intro ini reqs acc hmod
        have hne : ¬ (mkReq estiloW ini).ini = 1 := by
          show ¬ ini = 1
          omega
        have hnet : cNetOffOne (mkReq estiloW ini) = .success wListingDoc := by
          unfold cNetOffOne
          rw [if_neg hne]
        have hp : pageLinks (cNetOffOne (mkReq estiloW ini)) =
            some (urljoin siteRoot (pyStrip wH1) ::
              [urljoin siteRoot (pyStrip wH2), urljoin siteRoot (pyStrip wH3)]) := by
          rw [hnet]
          decide
        rw [fetchLoop_step cNetOffOne estiloW 50 f ini reqs acc _ _ hp]
        exact ih (ini + 50) _ _ (by omega)
    have := hrun fuel 0 [] [] (by omega)
    unfold fetch_all_artists at hfuel
    rw [this] at hfuel
    cases hfuel

/-- C4: every URL returned by `fetch_all_artists` and every URL returned
by `extract_urls_from_page` is absolute (carries a URI scheme): the
paginator joins hrefs against the site root, and the link extractor joins
them against `page_url`, which necessarily had an `http`/`https` scheme
for its fetch to succeed at all. -/
theorem C4_absolute_urls :
    (∀ (net : ReqParams → FetchResult) (e : Str) (inc mr dl fuel : Nat)
      (links : List Str),
      (fetch_all_artists net e inc mr dl fuel).2 = some links →
      ∀ u ∈ links, isAbsoluteUrl u = true) ∧
    (∀ (net : Str → FetchResult) (page_url : Str),
      ∀ u ∈ extract_urls_from_page net page_url, isAbsoluteUrl u = true) := by
  constructor
  · intro net e inc mr dl fuel links h u hu
    exact fetchLoop_links_abs net e inc fuel 0 [] []
      (by intro v hv; cases hv) links h u hu
  · intro net page_url u hu
    unfold extract_urls_from_page at hu
    rcases hr : requestsGet net page_url with _ | soup
    · rw [hr] at hu
      cases hu
    · have hscheme : hasHttpScheme page_url = true := by
        by_contra hc
        have hfail : requestsGet net page_url = .failure := by
          unfold requestsGet
          rw [if_neg hc]
        rw [hfail] at hr
        cases hr
      rw [hr] at hu
      dsimp only at hu
      rcases hb : docFind (isTagWithId ulTag bMainId) soup with _ | b_main
      · rw [hb] at hu
        cases hu
      · rw [hb] at hu
        dsimp only at hu
        rw [List.mem_filterMap] at hu
        obtain ⟨a, _, ha⟩ := hu
        rcases hattr : attrOf a hrefAttr with _ | href
        · rw [hattr] at ha
          cases ha
        · rw [hattr] at ha
          have hu2 : urljoin page_url (pyStrip href) = u := Option.some.inj ha
          rw [← hu2]
          exact urljoin_abs_of_http page_url _ hscheme

/-- C4 witness: a link produced by each of the two functions, shown
absolute through the theorem. -/
theorem C4_absolute_urls_witness :
    isAbsoluteUrl (urljoin siteRoot (pyStrip wH1)) = true ∧
    isAbsoluteUrl (urljoin wPageUrl (pyStrip ("/first/".toList))) = true :=
  ⟨C4_absolute_urls.1 wNet estiloW 50 3 1 2 wLinks (by decide)
      (urljoin siteRoot (pyStrip wH1)) (by decide),
   C4_absolute_urls.2 demoNet wPageUrl
      (urljoin wPageUrl (pyStrip ("/first/".toList))) (by decide)⟩

/-- C5 (amended): for every positive increment, the sequence of offsets
requested by a run starts at 0 and is the arithmetic progression with
step `increment`, so no offset is requested twice.  As stated — for every
value of the increment argument — the claim fails at increment 0: see the
counterexample. -/
theorem C5_offsets_progression (net : ReqParams → FetchResult) (e : Str)
    (inc mr dl fuel : Nat) (hinc : 0 < inc) :
    ((fetch_all_artists net e inc mr dl fuel).1.map ReqParams.ini) =
      (List.range ((fetch_all_artists net e inc mr dl fuel).1.length)).map
        (fun i => i * inc) ∧
    ((fetch_all_artists net e inc mr dl fuel).1.map ReqParams.ini).Nodup := by
  obtain ⟨n, hn⟩ := fetchLoop_trace net e inc fuel 0 [] []
  unfold fetch_all_artists
  rw [hn]
  simp only [List.nil_append]
  have hmap : ((List.range n).map (fun i => mkReq e (0 + i * inc))).map ReqParams.ini =
      (List.range n).map (fun i => i * inc) := by
    rw [List.map_map]
    apply List.map_congr_left
    intro i _
    show (mkReq e (0 + i * inc)).ini = i * inc
    simp [mkReq]
  rw [hmap]
  constructor
  · simp
  · apply List.Nodup.map
    · intro a b hab
      exact Nat.eq_of_mul_eq_mul_right hinc hab
    · exact List.nodup_range n

/-- C5 witness: with increment 50 the trace of a two-request run is the
strictly increasing progression 0, 50. -/
theorem C5_offsets_progression_witness :
    ((fetch_all_artists wNet estiloW 50 3 1 2).1.map ReqParams.ini) =
      (List.range ((fetch_all_artists wNet estiloW 50 3 1 2).1.length)).map
        (fun i => i * 50) ∧
    ((fetch_all_artists wNet estiloW 50 3 1 2).1.map ReqParams.ini).Nodup :=
  C5_offsets_progression wNet estiloW 50 3 1 2 (by decide)

/-- C5 counterexample: with increment 0 (a legal value of the argument)
and an always-productive page at offset 0, the run requests offset 0
twice — the offsets neither strictly increase nor stay distinct. -/
theorem C5_counterexample :
    ((fetch_all_artists cNetAlways estiloW 0 3 1 2).1.map ReqParams.ini) = [0, 0] ∧
    ¬ ((fetch_all_artists cNetAlways estiloW 0 3 1 2).1.map ReqParams.ini).Nodup := by
  constructor
  · decide
  · decide

/-- C6: when the fetch at offset `k * increment` fails at transport level
(connection error, timeout, or non-2xx status — all `RequestException`s)
after `k` link-bearing pages, the function neither raises nor retries: it
returns normally, its trace shows exactly one request at the failing
offset and none after it, and the result is exactly the links accumulated
from the offsets before the failing one. -/
theorem C6_failure_partial_result (net : ReqParams → FetchResult) (e : Str)
    (inc mr dl : Nat) (pages : Nat → List Str) (k m : Nat)
    (hgood : ∀ i, i < k →
      pageLinks (net (mkReq e (i * inc))) = some (pages i) ∧ pages i ≠ [])
    (hfail : net (mkReq e (k * inc)) = .failure) :
    fetch_all_artists net e inc mr dl (k + 1 + m) =
      ((List.range (k + 1)).map (fun i => mkReq e (i * inc)),
       some (((List.range k).map pages).flatten)) := by
  unfold fetch_all_artists
  have hstop : stopsRun (net (mkReq e ((0 + k) * inc))) = true := by
    simp only [Nat.zero_add]
    unfold stopsRun pageLinks
    rw [hfail]
  have h := fetchLoop_run net e inc pages k 0 m [] []
    (fun i hi => by simpa using hgood i hi) hstop
  rw [Nat.zero_mul] at h
  rw [h]
  simp

/-- C6 witness: one good page, then a transport failure at offset 50. -/
theorem C6_failure_partial_result_witness :
    fetch_all_artists wNetFail estiloW 50 3 1 2 =
      ((List.range 2).map (fun i => mkReq estiloW (i * 50)),
       some (((List.range 1).map (fun _ => wLinks)).flatten)) :=
  C6_failure_partial_result wNetFail estiloW 50 3 1 (fun _ => wLinks) 1 0
    (by
      intro i hi
      have hi0 : i = 0 := by omega
      subst hi0
      exact ⟨by decide, by decide⟩)
    (by decide)

/-- C7 (amended): for a content page whose `<div class="rLetra">` block's
children are exactly `N` sibling text nodes, each of which strips to a
nonempty string containing no `<` character, `extract_lyrics_from_url`
returns a single flattened string with exactly `N - 1` occurrences of the
literal marker `<br>` and no leading or trailing whitespace (it is a
fixed point of stripping).  As stated — for arbitrary text nodes — the
claim fails: a whitespace-only node is skipped by `get_text(strip=True)`
and a node already containing the literal `<br>` inflates the count; see
the counterexample. -/
theorem C7_lyrics_flatten (net : Str → FetchResult) (page_url : Str)
    (soup : List Node) (d : Node) (texts : List Str)
    (hfetch : requestsGet net page_url = .success soup)
    (hfind : docFind (isDivWithClass rLetraClass) soup = some d)
    (hch : d.children = texts.map Node.text)
    (hne : ∀ t ∈ texts, pyStrip t ≠ [])
    (hlt : ∀ t ∈ texts, ¬ '<' ∈ pyStrip t) :
    countOcc brMark (extract_lyrics_from_url net page_url) = texts.length - 1 ∧
    pyStrip (extract_lyrics_from_url net page_url) =
      extract_lyrics_from_url net page_url := by
  have hx : extract_lyrics_from_url net page_url = getTextStrip brMark d := by
    unfold extract_lyrics_from_url
    rw [hfetch]
    dsimp only
    rw [hfind]
  rw [hx]
  exact getTextStrip_spec d texts hch hne hlt

/-- C7 witness: a block with two clean text nodes flattens to one marker
occurrence and no surrounding whitespace. -/
theorem C7_lyrics_flatten_witness :
    countOcc brMark (extract_lyrics_from_url wLyricsNet wPageUrl) =
      (["Line1".toList, "Line2".toList] : List Str).length - 1 ∧
    pyStrip (extract_lyrics_from_url wLyricsNet wPageUrl) =
      extract_lyrics_from_url wLyricsNet wPageUrl :=
  C7_lyrics_flatten wLyricsNet wPageUrl [wLyricsDiv] wLyricsDiv
    ["Line1".toList, "Line2".toList]
    (by decide) (by decide) (by decide) (by decide) (by decide)

/-- C7 counterexample: two concrete pages whose content block holds
exactly two sibling text nodes, for which the flattened string does not
contain `2 - 1 = 1` marker occurrences: with a whitespace-only node the
count is 0 (the node is skipped), and with a node already containing the
literal `<br>` the count is 2. -/
theorem C7_counterexample :
    (cLyricsDivA.children =
        (["Line1".toList, "   ".toList] : List Str).map Node.text ∧
      docFind (isDivWithClass rLetraClass) [cLyricsDivA] = some cLyricsDivA ∧
      countOcc brMark (extract_lyrics_from_url cLyricsNetA wPageUrl) = 0 ∧
      ¬ countOcc brMark (extract_lyrics_from_url cLyricsNetA wPageUrl) = 2 - 1) ∧
    (cLyricsDivB.children =
        (["a<br>b".toList, "c".toList] : List Str).map Node.text ∧
      docFind (isDivWithClass rLetraClass) [cLyricsDivB] = some cLyricsDivB ∧
      countOcc brMark (extract_lyrics_from_url cLyricsNetB wPageUrl) = 2 ∧
      ¬ countOcc brMark (extract_lyrics_from_url cLyricsNetB wPageUrl) = 2 - 1) := by
  exact ⟨⟨by decide, by decide, by decide, by decide⟩,
         ⟨by decide, by decide, by decide, by decide⟩⟩

/-- C8: `search_spotify` raises (`RuntimeError`) exactly when the token
endpoint answers non-200; with authentication succeeded it returns the
empty dict without raising both on a non-200 search response and on a 200
response with zero track items; and on a 200 response with at least one
item it returns the top hit's track name, album name, release date, and
the raw item list as metadata. -/
theorem C8_spotify_lookup (song artist : Str) (authResp : AuthResponse)
    (searchNet : Str → SearchResponse) :
    (¬ authResp.status_code = 200 →
      search_spotify song artist authResp searchNet = .error ()) ∧
    (authResp.status_code = 200 →
      ¬ (searchNet (searchQuery song artist)).status_code = 200 →
      search_spotify song artist authResp searchNet = .ok .empty) ∧
    (authResp.status_code = 200 →
      (searchNet (searchQuery song artist)).status_code = 200 →
      (searchNet (searchQuery song artist)).items = [] →
      search_spotify song artist authResp searchNet = .ok .empty) ∧
    (∀ (track : SpotifyTrack) (rest : List SpotifyTrack),
      authResp.status_code = 200 →
      (searchNet (searchQuery song artist)).status_code = 200 →
      (searchNet (searchQuery song artist)).items = track :: rest →
      search_spotify song artist authResp searchNet =
        .ok (.found track.name track.album_name track.album_release_date
          (track :: rest))) := by
  refine ⟨?_, ?_, ?_, ?_⟩
  · intro hauth
    unfold search_spotify
    rw [if_neg hauth]
  · intro hauth hsearch
    unfold search_spotify
    rw [if_pos hauth, if_neg hsearch]
  · intro hauth hsearch hitems
    unfold search_spotify
    rw [if_pos hauth, if_pos hsearch, hitems]
  · intro track rest hauth hsearch hitems
    unfold search_spotify
    rw [if_pos hauth, if_pos hsearch, hitems]

/-- C8 witness: the four paths at concrete responses. -/
theorem C8_spotify_lookup_witness :
    search_spotify ("Yesterday".toList) ("Beatles".toList) wAuthBad wSearchHit =
      .error () ∧
    search_spotify ("Yesterday".toList) ("Beatles".toList) wAuthOk wSearchErr =
      .ok .empty ∧
    search_spotify ("Yesterday".toList) ("Beatles".toList) wAuthOk wSearchMiss =
      .ok .empty ∧
    search_spotify ("Yesterday".toList) ("Beatles".toList) wAuthOk wSearchHit =
      .ok (.found wTrack.name wTrack.album_name wTrack.album_release_date [wTrack]) :=
  ⟨(C8_spotify_lookup ("Yesterday".toList) ("Beatles".toList) wAuthBad wSearchHit).1
      (by decide),
   (C8_spotify_lookup ("Yesterday".toList) ("Beatles".toList) wAuthOk wSearchErr).2.1
      (by decide) (by decide),
   (C8_spotify_lookup ("Yesterday".toList) ("Beatles".toList) wAuthOk wSearchMiss).2.2.1
      (by decide) (by decide) (by decide),
   (C8_spotify_lookup ("Yesterday".toList) ("Beatles".toList) wAuthOk wSearchHit).2.2.2
      wTrack [] (by decide) (by decide) (by decide)⟩

/-- C9: `max_retries` has no effect on behaviour — two calls differing
only in it return identical traces and results — and a failed first fetch
aborts immediately: one single request, no retry, empty result. -/
theorem C9_max_retries_dead :
    (∀ (net : ReqParams → FetchResult) (e : Str) (inc mr1 mr2 dl fuel : Nat),
      fetch_all_artists net e inc mr1 dl fuel =
        fetch_all_artists net e inc mr2 dl fuel) ∧
    (∀ (net : ReqParams → FetchResult) (e : Str) (inc mr dl m : Nat),
      net (mkReq e 0) = .failure →
      fetch_all_artists net e inc mr dl (m + 1) = ([mkReq e 0], some [])) := by
  constructor
  · intro net e inc mr1 mr2 dl fuel
    rfl
  · intro net e inc mr dl m hfail
    unfold fetch_all_artists
    have hp : pageLinks (net (mkReq e 0)) = none := by
      unfold pageLinks
      rw [hfail]
    rw [fetchLoop_stop_none net e inc m 0 [] [] hp]
    simp

/-- C9 witness: two runs differing only in `max_retries` coincide, and a
first-fetch failure yields a single request and the empty result. -/
theorem C9_max_retries_dead_witness :
    fetch_all_artists wNet estiloW 50 3 1 2 = fetch_all_artists wNet estiloW 50 99 1 2 ∧
    fetch_all_artists wNetFail0 estiloW 50 3 1 1 = ([mkReq estiloW 0], some []) :=
  ⟨C9_max_retries_dead.1 wNet estiloW 50 3 99 1 2,
   C9_max_retries_dead.2 wNetFail0 estiloW 50 3 1 0 (by decide)⟩

/-- C10: `fetch_all_artists` appends at most one URL per `<li>` of the
listing container — the href of the li's first `<a>` — so extra anchors
inside the same `<li>` are dropped, while `extract_urls_from_page`
collects every href-bearing anchor of its container: on a list item with
two anchors the paginator-side extraction yields one link and the
`b_main`-side extraction yields both. -/
theorem C10_first_anchor_per_li :
    (∀ ul : Node,
      (artistLinksOfUl ul).length ≤ (elemFindAll (isTag liTag) ul).length) ∧
    artistLinksOfUl demoUl = [urljoin siteRoot ("/first/".toList)] ∧
    extract_urls_from_page demoNet wPageUrl =
      [urljoin wPageUrl ("/first/".toList), urljoin wPageUrl ("/second/".toList)] := by
  refine ⟨?_, by decide, by decide⟩
  intro ul
  unfold artistLinksOfUl
  exact List.length_filterMap_le _ _

/-- C10 witness: the per-li bound at the two-anchor list item. -/
theorem C10_first_anchor_per_li_witness :
    (artistLinksOfUl demoUl).length ≤ (elemFindAll (isTag liTag) demoUl).length :=
  C10_first_anchor_per_li.1 demoUl
